import Mathlib

/-!
Verification of the backpack-stat repository against its specification.

Shallow embedding of:
  * the strategy registry (src/backpack/secondorder/strategies.py),
  * the extended Conv2d layer (src/bpexts/gradient/conv2d.py): the input
    cache hook, the backward hook attaching per-example gradient and
    sum-of-squared-gradient artifacts, and the underlying einsum math,
  * the parallel composite partition operations and Hessian backpropagation
    (modelled from the spec; exercised by src/bpexts/hbp/parallel/parallel_test.py),
  * the loss-layer second-order operations (modelled from the spec;
    exercised by src/test/core/derivatives/derivatives_test.py),
  * the DiagHReLU extension (src/bpexts/gradient/diagh/relu.py) together
    with a model of Python name resolution inside its module.

Tensors are embedded as functions over Fin-indexed coordinates with exact
(Int or Rat) entries; fallible Python code is embedded as Except-valued
functions over an error taxonomy mirroring the spec's section 7.
-/

/-- Error taxonomy of the spec (section 7), plus the Python NameError the
DiagHReLU extension actually raises. The source raises ValueError where the
spec says ShapeError, and AttributeError where the spec says UnknownStrategy;
the message string is kept from the source. -/
inductive BpError where
  | shapeError (msg : String)
  | unknownStrategy (msg : String)
  | hessianUndefined
  | sizeMismatch
  | nameError (nm : String)
  deriving DecidableEq, Repr

/-! ## Strategy registry (src/backpack/secondorder/strategies.py) -/

namespace LossHessianStrategy

def EXACT : String := "exact"
def SAMPLING : String := "sampling"
def AVERAGE : String := "average"

def CHOICES : List String := [EXACT, SAMPLING, AVERAGE]

/-- check_exists of LossHessianStrategy: raises for labels outside CHOICES. -/
def check_exists (strategy : String) : Except BpError Unit :=
  if strategy ∈ CHOICES then Except.ok ()
  else Except.error (BpError.unknownStrategy
    ("Unknown loss Hessian strategy: " ++ strategy))

end LossHessianStrategy

namespace BackpropStrategy

def SQRT : String := "sqrt"
def BATCH_AVERAGE : String := "average"

def CHOICES : List String := [BATCH_AVERAGE, SQRT]

/-- check_exists of BackpropStrategy: raises for labels outside CHOICES. -/
def check_exists (strategy : String) : Except BpError Unit :=
  if strategy ∈ CHOICES then Except.ok ()
  else Except.error (BpError.unknownStrategy
    ("Unknown backpropagation strategy: " ++ strategy))

/-- is_batch_average: re-validates its argument, then compares. -/
def is_batch_average (strategy : String) : Except BpError Bool := do
  check_exists strategy
  return strategy == BATCH_AVERAGE

/-- is_sqrt: re-validates its argument, then compares. -/
def is_sqrt (strategy : String) : Except BpError Bool := do
  check_exists strategy
  return strategy == SQRT

end BackpropStrategy

namespace ExpectationApproximation

def BOTEV_MARTENS : String := "E[J^T E(H) J]"
def CHEN : String := "E(J^T) E(H) E(J)"

def CHOICES : List String := [BOTEV_MARTENS, CHEN]

/-- check_exists of ExpectationApproximation: raises for labels outside CHOICES. -/
def check_exists (strategy : String) : Except BpError Unit :=
  if strategy ∈ CHOICES then Except.ok ()
  else Except.error (BpError.unknownStrategy
    ("Unknown EA strategy: " ++ strategy))

/-- should_average_param_jac: re-validates its argument, then compares. -/
def should_average_param_jac (strategy : String) : Except BpError Bool := do
  check_exists strategy
  return strategy == CHEN

end ExpectationApproximation

/-- An Except value is an error. -/
def isUnknownStrategyError {α : Type} : Except BpError α → Prop
  | Except.error (BpError.unknownStrategy _) => True
  | _ => False

instance {α : Type} (e : Except BpError α) : Decidable (isUnknownStrategyError e) :=
  match e with
  | Except.ok _ => isFalse id
  | Except.error (BpError.unknownStrategy _) => isTrue trivial
  | Except.error (BpError.shapeError _) => isFalse id
  | Except.error BpError.hessianUndefined => isFalse id
  | Except.error BpError.sizeMismatch => isFalse id
  | Except.error (BpError.nameError _) => isFalse id

/-- An Except value is a success. -/
def isOk {ε α : Type} : Except ε α → Prop
  | Except.ok _ => True
  | Except.error _ => False

instance {ε α : Type} (e : Except ε α) : Decidable (isOk e) := by
  rcases e with _ | _ <;> unfold isOk <;> infer_instance

/-- C7. For each of the three strategy enumerations, the validation operation
and every derived predicate (is_sqrt, is_batch_average,
should_average_param_jac, each of which re-validates its argument) fail with
an UnknownStrategy error for every label outside the closed choice set, and
never fail for a label inside the set. -/
theorem strategies_fail_closed (s : String) :
    (s ∉ LossHessianStrategy.CHOICES →
      isUnknownStrategyError (LossHessianStrategy.check_exists s)) ∧
    (s ∈ LossHessianStrategy.CHOICES → isOk (LossHessianStrategy.check_exists s)) ∧
    (s ∉ BackpropStrategy.CHOICES →
      isUnknownStrategyError (BackpropStrategy.check_exists s) ∧
      isUnknownStrategyError (BackpropStrategy.is_sqrt s) ∧
      isUnknownStrategyError (BackpropStrategy.is_batch_average s)) ∧
    (s ∈ BackpropStrategy.CHOICES →
      isOk (BackpropStrategy.check_exists s) ∧
      isOk (BackpropStrategy.is_sqrt s) ∧
      isOk (BackpropStrategy.is_batch_average s)) ∧
    (s ∉ ExpectationApproximation.CHOICES →
      isUnknownStrategyError (ExpectationApproximation.check_exists s) ∧
      isUnknownStrategyError (ExpectationApproximation.should_average_param_jac s)) ∧
    (s ∈ ExpectationApproximation.CHOICES →
      isOk (ExpectationApproximation.check_exists s) ∧
      isOk (ExpectationApproximation.should_average_param_jac s)) := by
  by_cases h1 : s ∈ LossHessianStrategy.CHOICES <;>
    by_cases h2 : s ∈ BackpropStrategy.CHOICES <;>
    by_cases h3 : s ∈ ExpectationApproximation.CHOICES <;>
    simp [h1, h2, h3, isOk, isUnknownStrategyError, Except.bind, Except.map,
      LossHessianStrategy.check_exists, BackpropStrategy.check_exists,
      ExpectationApproximation.check_exists, BackpropStrategy.is_sqrt,
      BackpropStrategy.is_batch_average, ExpectationApproximation.should_average_param_jac]

/-- Witness for C7: the theorem applied at a label inside every set is
impossible, so check it at concrete labels: "average" lies in two of the
sets, "bogus" in none. -/
theorem strategies_fail_closed_witness :
    isOk (BackpropStrategy.is_batch_average "average") ∧
    isUnknownStrategyError (LossHessianStrategy.check_exists "bogus") := by
  refine ⟨((strategies_fail_closed "average").2.2.2.1 (by decide)).2.2, ?_⟩
  exact (strategies_fail_closed "bogus").1 (by decide)

/-! ## Conv2d einsum math (src/bpexts/gradient/conv2d.py)

Shapes follow the docstring of _compute_weight_grad_batch: after the
`.view` calls, the unfolded input X has shape
(batch B, kernel-flat L = in_channels*k_x*k_y, patches P) and the output
gradient dE_dY has shape (batch B, out_channels O, patches P); the spatial
output dimensions are flattened into the patch axis P exactly as the
source's `.view(batch_size, out_channels, -1)` does. Entries are exact
integers standing for the real tensor entries. -/

/-- einsum('blj,bkj->bkl', (X, dE_dY)): the per-example weight gradient of
_compute_weight_grad_batch, indexed (batch, out_channel, kernel-flat). -/
def weightGradBatch {B O L P : Nat}
    (X : Fin B → Fin L → Fin P → Int)
    (dE_dY : Fin B → Fin O → Fin P → Int)
    (b : Fin B) (k : Fin O) (l : Fin L) : Int :=
  ∑ j : Fin P, X b l j * dE_dY b k j

/-- (einsum('bml,bkl->bmk', (dE_dY, X))**2).sum(0): the weight
sum-of-squared-gradients of _compute_weight_sgs, indexed
(out_channel, kernel-flat). -/
def weightSGS {B O L P : Nat}
    (X : Fin B → Fin L → Fin P → Int)
    (dE_dY : Fin B → Fin O → Fin P → Int)
    (m : Fin O) (k : Fin L) : Int :=
  ∑ b : Fin B, (∑ l : Fin P, dE_dY b m l * X b k l) ^ 2

/-- grad_output.sum(3).sum(2): the per-example bias gradient of
_compute_bias_grad_batch — the output gradient summed over the (flattened)
spatial positions. -/
def biasGradBatch {B O P : Nat}
    (dE_dY : Fin B → Fin O → Fin P → Int)
    (b : Fin B) (c : Fin O) : Int :=
  ∑ j : Fin P, dE_dY b c j

/-- (grad_output.sum(3).sum(2)**2).sum(0): the bias sum-of-squared-gradients
of _compute_bias_sgs. -/
def biasSGS {B O P : Nat}
    (dE_dY : Fin B → Fin O → Fin P → Int)
    (c : Fin O) : Int :=
  ∑ b : Fin B, (∑ j : Fin P, dE_dY b c j) ^ 2

/-- C1. For every convolution layer, cached (unfolded) input and output
gradient, the stored sum-of-squared-gradient artifact equals the elementwise
square of the per-example gradient summed over the batch axis — for the
weight, the square of the per-example unfolded-input-against-output-gradient
contraction summed over examples, and for the bias the square of each
example's spatially-summed output gradient summed over examples — and there
is a concrete two-example batch on which it differs from the elementwise
square of the batch-summed gradient. -/
theorem conv2d_sgs_is_sum_of_squared_per_example_grad :
    (∀ (B O L P : Nat)
      (X : Fin B → Fin L → Fin P → Int) (dE_dY : Fin B → Fin O → Fin P → Int)
      (m : Fin O) (k : Fin L),
        weightSGS X dE_dY m k = ∑ b : Fin B, (weightGradBatch X dE_dY b m k) ^ 2) ∧
    (∀ (B O P : Nat) (dE_dY : Fin B → Fin O → Fin P → Int) (c : Fin O),
        biasSGS dE_dY c = ∑ b : Fin B, (biasGradBatch dE_dY b c) ^ 2) ∧
    (∃ (X : Fin 2 → Fin 1 → Fin 1 → Int) (dE_dY : Fin 2 → Fin 1 → Fin 1 → Int),
        weightSGS X dE_dY 0 0 ≠ (∑ b : Fin 2, weightGradBatch X dE_dY b 0 0) ^ 2) := by
  refine ⟨?_, ?_, ?_⟩
  · intro B O L P X dE_dY m k
    unfold weightSGS weightGradBatch
    refine Finset.sum_congr rfl fun b _ => ?_
    congr 1
    exact Finset.sum_congr rfl fun j _ => mul_comm _ _
  · intro B O P dE_dY c
    rfl
  · refine ⟨fun _ _ _ => 1, fun _ _ _ => 1, ?_⟩
    decide

/-! ## Conv2d forward pre-hook store_input (src/bpexts/gradient/conv2d.py) -/

/-- A tensor as the hook sees it: a shape (list of dimension sizes), flat
data, and the autograd requires_grad flag. clone().detach() copies the data
and drops the gradient requirement. -/
structure PyTensor where
  shape : List Nat
  data : List Int
  requires_grad : Bool
  deriving DecidableEq, Repr

/-- input.clone().detach(): same shape and data, detached from the graph. -/
def PyTensor.cloneDetach (t : PyTensor) : PyTensor :=
  { shape := t.shape, data := t.data, requires_grad := false }

/-- The part of the Conv2d module state the forward pre-hook touches: the
`input` buffer (none before the first forward call). -/
structure Conv2dInputCache where
  input : Option PyTensor
  deriving DecidableEq, Repr

/-- store_input: the forward pre-hook of Conv2d. Rejects anything but exactly
one 4-dimensional tensor (the source raises ValueError, the spec's
ShapeError), otherwise registers a detached clone of the single input as the
module buffer, replacing any previous one. -/
def store_input (module : Conv2dInputCache) (inputs : List PyTensor) :
    Except BpError Conv2dInputCache :=
  if h : inputs.length = 1 then
    let t := inputs.get ⟨0, by simp [h]⟩
    if t.shape.length = 4 then
      Except.ok { input := some t.cloneDetach }
    else
      Except.error (BpError.shapeError "Expecting 4D input (batch, channel, x, y)")
  else
    Except.error (BpError.shapeError "Cannot handle multi-input scenario")

/-- C6. The forward hook fails with a ShapeError when given more than one
input tensor or a single input tensor whose rank is not 4, and otherwise
stores a detached copy of the single input as the cached input, overwriting
whatever was cached before. -/
theorem store_input_spec (module : Conv2dInputCache) (inputs : List PyTensor) :
    (1 < inputs.length →
      store_input module inputs =
        Except.error (BpError.shapeError "Cannot handle multi-input scenario")) ∧
    (∀ t : PyTensor, inputs = [t] → t.shape.length ≠ 4 →
      store_input module inputs =
        Except.error (BpError.shapeError "Expecting 4D input (batch, channel, x, y)")) ∧
    (∀ t : PyTensor, inputs = [t] → t.shape.length = 4 →
      store_input module inputs =
        Except.ok { input := some t.cloneDetach }) := by
  refine ⟨?_, ?_, ?_⟩
  · intro hlen
    unfold store_input
    rw [dif_neg (by omega)]
  · intro t ht hrank
    subst ht
    unfold store_input
    simp [hrank]
  · intro t ht hrank
    subst ht
    unfold store_input
    simp [hrank]

/-- Witness for C6: at a module with a stale cached input, one fresh
4-dimensional input is cached detached, two inputs are rejected. -/
theorem store_input_spec_witness :
    store_input { input := some { shape := [9], data := [3], requires_grad := true } }
        [{ shape := [1, 1, 1, 1], data := [5], requires_grad := true }] =
      Except.ok { input := some { shape := [1, 1, 1, 1], data := [5], requires_grad := false } } ∧
    store_input { input := none }
        [{ shape := [1, 1, 1, 1], data := [5], requires_grad := true },
         { shape := [1, 1, 1, 1], data := [7], requires_grad := true }] =
      Except.error (BpError.shapeError "Cannot handle multi-input scenario") := by
  constructor
  · exact (store_input_spec
      { input := some { shape := [9], data := [3], requires_grad := true } }
      [{ shape := [1, 1, 1, 1], data := [5], requires_grad := true }]).2.2
      _ rfl (by decide)
  · exact (store_input_spec { input := none } _).1 (by decide)

/-! ## Parallel composite partitions (src/bpexts/hbp/parallel) -/

/-- Ceiling division on naturals. -/
def divCeil (a b : Nat) : Nat := (a + b - 1) / b

/-- Modelled from the spec: the file src/bpexts/hbp/parallel/parallel.py
defining HBPParallel.compute_out_features_list is not in src/ (only its test
is). Per the spec it partitions the total output-feature count into at most
target_block_count blocks of size ceil(total/target) or floor(total/target),
larger blocks first, summing exactly to total; when target >= total the
result is total unit blocks. -/
def compute_out_features_list (total target_block_count : Nat) : List Nat :=
  let blocks := min target_block_count total
  let q := total / blocks
  let r := total % blocks
  List.replicate r (q + 1) ++ List.replicate (blocks - r) q

/-- A replicate list is sorted for any reflexive-at-the-element relation;
here, non-increasing order. -/
lemma sorted_ge_replicate (n x : Nat) :
    List.Sorted (fun a b => b ≤ a) (List.replicate n x) := by
  induction n with
  | zero => simp
  | succ n ih =>
    rw [List.replicate_succ, List.sorted_cons]
    exact ⟨fun b hb => le_of_eq (List.eq_of_mem_replicate hb), ih⟩

/-- The merge partition always sums back to the total feature count. -/
lemma compute_out_features_list_sum (T k : Nat) (hk : 1 ≤ k) :
    (compute_out_features_list T k).sum = T := by
  rcases Nat.eq_zero_or_pos T with hT | hT
  · subst hT
    simp [compute_out_features_list]
  · have hkk : 1 ≤ min k T := le_min hk hT
    simp only [compute_out_features_list, List.sum_append, List.sum_replicate,
      smul_eq_mul]
    set kk := min k T with hkkdef
    set q := T / kk with hq
    set r := T % kk with hr
    have hmod : kk * q + r = T := Nat.div_add_mod T kk
    have hrlt : r < kk := Nat.mod_lt T (by omega)
    have hsub : (kk - r) * q = kk * q - r * q := Nat.sub_mul kk r q
    have hle : r * q ≤ kk * q := Nat.mul_le_mul_right q (le_of_lt hrlt)
    rw [hsub, Nat.mul_add]
    omega

/-- C2. The merge partition has at most k blocks, every block has size
ceil(T/k) or floor(T/k), larger blocks come first, the sizes sum to T, for
k >= T the result is T unit blocks, and on total 10 the partitions for
targets 4, 6, 10 and 15 are exactly those of the test. -/
theorem compute_out_features_list_spec (T k : Nat) (hT : 1 ≤ T) (hk : 1 ≤ k) :
    (compute_out_features_list T k).length ≤ k ∧
    (∀ s ∈ compute_out_features_list T k, s = divCeil T k ∨ s = T / k) ∧
    List.Sorted (fun a b => b ≤ a) (compute_out_features_list T k) ∧
    (compute_out_features_list T k).sum = T ∧
    (T ≤ k → compute_out_features_list T k = List.replicate T 1) ∧
    compute_out_features_list 10 4 = [3, 3, 2, 2] ∧
    compute_out_features_list 10 6 = [2, 2, 2, 2, 1, 1] ∧
    compute_out_features_list 10 10 = List.replicate 10 1 ∧
    compute_out_features_list 10 15 = List.replicate 10 1 := by
  have hkk : 1 ≤ min k T := le_min hk hT
  have hmod : min k T * (T / min k T) + T % min k T = T := Nat.div_add_mod T (min k T)
  have hrlt : T % min k T < min k T := Nat.mod_lt T (by omega)
  have hminle : min k T ≤ k := min_le_left k T
  refine ⟨?_, ?_, ?_, compute_out_features_list_sum T k hk, ?_, by decide, by decide,
    by decide, by decide⟩
  · simp only [compute_out_features_list, List.length_append, List.length_replicate]
    omega
  · intro s hs
    simp only [compute_out_features_list, List.mem_append] at hs
    rcases le_or_lt k T with hcase | hcase
    · rw [min_eq_left hcase] at hmod hrlt hs
      rcases hs with hs | hs
      · rcases List.mem_replicate.mp hs with ⟨hrne, hsq⟩
        left
        subst hsq
        unfold divCeil
        have hmulsucc : k * (T / k + 1) = k * (T / k) + k := Nat.mul_succ k (T / k)
        have hsplit : T + k - 1 = (T % k - 1) + k * (T / k + 1) := by omega
        rw [hsplit, Nat.add_mul_div_left _ _ (by omega : 0 < k),
          Nat.div_eq_of_lt (show T % k - 1 < k by omega)]
        omega
      · right
        exact (List.eq_of_mem_replicate hs)
    · rw [min_eq_right (le_of_lt hcase)] at hmod hrlt hs
      rw [Nat.mod_self] at hs
      rcases hs with hs | hs
      · simp at hs
      · left
        have hsq : s = T / T := List.eq_of_mem_replicate hs
        rw [Nat.div_self hT] at hsq
        subst hsq
        unfold divCeil
        have hmulone : k * 1 = k := Nat.mul_one k
        have hsplit : T + k - 1 = (T - 1) + k * 1 := by omega
        rw [hsplit, Nat.add_mul_div_left _ _ (by omega : 0 < k),
          Nat.div_eq_of_lt (show T - 1 < k by omega)]
  · simp only [compute_out_features_list, List.Sorted, List.pairwise_append]
    refine ⟨sorted_ge_replicate _ _, sorted_ge_replicate _ _, ?_⟩
    intro a ha b hb
    rw [List.eq_of_mem_replicate ha, List.eq_of_mem_replicate hb]
    omega
  · intro hTk
    have : min k T = T := min_eq_right hTk
    simp [compute_out_features_list, this, Nat.div_self hT, Nat.mod_self]

/-- Witness for C2: the theorem instantiated at total 10, target 4. -/
theorem compute_out_features_list_spec_witness :
    compute_out_features_list 10 4 = [3, 3, 2, 2] ∧
    (compute_out_features_list 10 4).sum = 10 := by
  have h := compute_out_features_list_spec 10 4 (by decide) (by decide)
  exact ⟨h.2.2.2.2.2.1, h.2.2.2.1⟩

/-- Modelled from the spec: the HBPParallel class of
src/bpexts/hbp/parallel/parallel.py is not in src/ (only its test is). The
partition-level state of a parallel composite is the list of sibling
output-feature counts. -/
structure HBPParallel where
  out_features_list : List Nat
  deriving DecidableEq, Repr

/-- total_out_features: sum of the sibling output-feature counts. -/
def HBPParallel.total_out_features (p : HBPParallel) : Nat :=
  p.out_features_list.sum

/-- Modelled from the spec: merge(target_block_count) repartitions the
composite along the block sizes computed by compute_out_features_list. -/
def HBPParallel.merge (p : HBPParallel) (target_block_count : Nat) : HBPParallel :=
  { out_features_list := compute_out_features_list p.total_out_features target_block_count }

/-- Modelled from the spec: split(explicit_sizes) repartitions strictly
according to a caller-supplied list of block sizes and fails with a
SizeMismatch error if the list does not sum to total_out_features. -/
def HBPParallel.split (p : HBPParallel) (sizes : List Nat) :
    Except BpError HBPParallel :=
  if sizes.sum = p.total_out_features then
    Except.ok { out_features_list := sizes }
  else
    Except.error BpError.sizeMismatch

/-- C4. merge(k) followed by split with the composite's original sibling
sizes returns the exact original partition; the split result has the same
total_out_features as the original and the same merge partition
compute_out_features_list(k') for every k'. -/
theorem merge_split_roundtrip (sizes : List Nat) (k : Nat) (hk : 1 ≤ k) :
    (HBPParallel.split (HBPParallel.merge { out_features_list := sizes } k) sizes =
      Except.ok { out_features_list := sizes }) ∧
    (∀ p' : HBPParallel,
      HBPParallel.split (HBPParallel.merge { out_features_list := sizes } k) sizes =
        Except.ok p' →
      p'.total_out_features =
        HBPParallel.total_out_features { out_features_list := sizes } ∧
      ∀ k' : Nat,
        compute_out_features_list p'.total_out_features k' =
          compute_out_features_list
            (HBPParallel.total_out_features { out_features_list := sizes }) k') := by
  have hsum : (HBPParallel.merge { out_features_list := sizes } k).total_out_features
      = sizes.sum :=
    compute_out_features_list_sum sizes.sum k hk
  constructor
  · unfold HBPParallel.split
    rw [if_pos]
    rw [hsum]
  · intro p' hp'
    unfold HBPParallel.split at hp'
    rw [if_pos (by rw [hsum])] at hp'
    cases hp'
    exact ⟨rfl, fun k' => rfl⟩

/-- Witness for C4: the round trip at the test's sibling sizes [3, 2, 5]
with merge target 4. -/
theorem merge_split_roundtrip_witness :
    HBPParallel.split
        (HBPParallel.merge { out_features_list := [3, 2, 5] } 4) [3, 2, 5] =
      Except.ok { out_features_list := [3, 2, 5] } :=
  (merge_split_roundtrip [3, 2, 5] 4 (by decide)).1

/-! ## Hessian backpropagation through a parallel composite

Modelled from the spec: the HBPParallel/HBPLinear backward_hessian code of
src/bpexts/hbp is not in src/ (only parallel_test.py is). Per the spec, a
composite of sibling linear layers consuming the same input concatenates the
sibling outputs along the feature axis; for backpropagation each sibling
receives the slice of the upstream curvature corresponding to its own output
features, an affine sibling backpropagates it as the Jacobian sandwich, and
the composite forwards to its input the sum of the sibling contributions.
The stacked weight is W : (total out features) x (in features); `owner`
records which sibling each output feature belongs to. The loss is
example_loss of parallel_test.py (sum of squared entries, output Hessian
2*identity), and the brute-force input Hessian is the exact second
difference of the loss, which for a quadratic loss is the Hessian. -/

/-- Standard basis vector. -/
def basisQ {I : Nat} (j : Fin I) : Fin I → ℚ :=
  fun i => if i = j then 1 else 0

/-- Forward map of the composite: sibling rows stacked, shared input. -/
def parallelForward {T I : Nat} (W : Fin T → Fin I → ℚ) (bvec : Fin T → ℚ)
    (x : Fin I → ℚ) (o : Fin T) : ℚ :=
  (∑ i : Fin I, W o i * x i) + bvec o

/-- example_loss of parallel_test.py: sum over squared entries. -/
def example_loss {T : Nat} (y : Fin T → ℚ) : ℚ :=
  ∑ o : Fin T, (y o) ^ 2

/-- The loss evaluated after the composite forward pass. -/
def parallelLoss {T I : Nat} (W : Fin T → Fin I → ℚ) (bvec : Fin T → ℚ)
    (x : Fin I → ℚ) : ℚ :=
  example_loss (fun o => parallelForward W bvec x o)

/-- Hessian of example_loss with respect to the composite output:
2 * identity, as in hessian_backward of parallel_test.py. -/
def lossOutputHessian (T : Nat) : Fin T → Fin T → ℚ :=
  fun o o' => if o = o' then 2 else 0

/-- One sibling's backpropagated input-side contribution: the transposed
Jacobian sandwich of the slice of the upstream curvature belonging to the
sibling's own output features (hessian_is_zero holds for a linear layer, so
there is no extra diagonal term). -/
def siblingInputHessian {n T I : Nat} (owner : Fin T → Fin n)
    (W : Fin T → Fin I → ℚ) (H : Fin T → Fin T → ℚ)
    (i : Fin n) (j j' : Fin I) : ℚ :=
  ∑ o : Fin T, ∑ o' : Fin T,
    if owner o = i ∧ owner o' = i then W o j * H o o' * W o' j' else 0

/-- backward_hessian of the composite: the sum over siblings of each
sibling's backpropagated input-side contribution. -/
def backwardHessian {n T I : Nat} (owner : Fin T → Fin n)
    (W : Fin T → Fin I → ℚ) (H : Fin T → Fin T → ℚ) (j j' : Fin I) : ℚ :=
  ∑ i : Fin n, siblingInputHessian owner W H i j j'

/-- Brute-force input Hessian as in hessian.exact: for the quadratic loss it
is recovered exactly by a second difference of the loss at the input. -/
def bruteForceInputHessian {T I : Nat} (W : Fin T → Fin I → ℚ)
    (bvec : Fin T → ℚ) (x : Fin I → ℚ) (j j' : Fin I) : ℚ :=
  parallelLoss W bvec (fun i => x i + basisQ j i + basisQ j' i)
    - parallelLoss W bvec (fun i => x i + basisQ j i)
    - parallelLoss W bvec (fun i => x i + basisQ j' i)
    + parallelLoss W bvec x

/-- Shifting the input by a basis vector shifts each output by the
corresponding weight entry. -/
lemma parallelForward_shift {T I : Nat} (W : Fin T → Fin I → ℚ)
    (bvec : Fin T → ℚ) (x : Fin I → ℚ) (j : Fin I) (o : Fin T) :
    parallelForward W bvec (fun i => x i + basisQ j i) o =
      parallelForward W bvec x o + W o j := by
  unfold parallelForward basisQ
  rw [show (∑ i : Fin I, W o i * (x i + if i = j then 1 else 0)) =
      (∑ i : Fin I, (W o i * x i + if i = j then W o i else 0)) from
    Finset.sum_congr rfl fun i _ => by by_cases h : i = j <;> simp [h] <;> ring]
  rw [Finset.sum_add_distrib, Finset.sum_ite_eq' Finset.univ j (fun i => W o i)]
  simp
  ring

/-- The second difference of the composite loss evaluates to twice the
weight Gram matrix. -/
lemma bruteForceInputHessian_eq {T I : Nat} (W : Fin T → Fin I → ℚ)
    (bvec : Fin T → ℚ) (x : Fin I → ℚ) (j j' : Fin I) :
    bruteForceInputHessian W bvec x j j' = ∑ o : Fin T, 2 * (W o j * W o j') := by
  unfold bruteForceInputHessian parallelLoss example_loss
  have hj : ∀ o, parallelForward W bvec (fun i => x i + basisQ j i) o =
      parallelForward W bvec x o + W o j := parallelForward_shift W bvec x j
  have hj' : ∀ o, parallelForward W bvec (fun i => x i + basisQ j' i) o =
      parallelForward W bvec x o + W o j' := parallelForward_shift W bvec x j'
  have hjj' : ∀ o, parallelForward W bvec (fun i => x i + basisQ j i + basisQ j' i) o =
      parallelForward W bvec x o + W o j + W o j' := by
    intro o
    have := parallelForward_shift W bvec (fun i => x i + basisQ j i) j' o
    rw [this, hj o]
  rw [Finset.sum_congr rfl fun o _ => congrArg (· ^ 2) (hjj' o),
    Finset.sum_congr rfl fun o _ => congrArg (· ^ 2) (hj o),
    Finset.sum_congr rfl fun o _ => congrArg (· ^ 2) (hj' o),
    ← Finset.sum_sub_distrib, ← Finset.sum_sub_distrib, ← Finset.sum_add_distrib]
  exact Finset.sum_congr rfl fun o _ => by ring

/-- Backpropagating the 2*identity loss Hessian through the composite also
evaluates to twice the weight Gram matrix. -/
lemma backwardHessian_eq {n T I : Nat} (owner : Fin T → Fin n)
    (W : Fin T → Fin I → ℚ) (j j' : Fin I) :
    backwardHessian owner W (lossOutputHessian T) j j' =
      ∑ o : Fin T, 2 * (W o j * W o j') := by
  unfold backwardHessian siblingInputHessian lossOutputHessian
  rw [Finset.sum_comm]
  refine Finset.sum_congr rfl fun o _ => ?_
  rw [Finset.sum_comm]
  have hinner : ∀ o' : Fin T,
      (∑ i : Fin n, if owner o = i ∧ owner o' = i then
          W o j * (if o = o' then (2 : ℚ) else 0) * W o' j' else 0) =
        if o = o' then 2 * (W o j * W o' j') else 0 := by
    intro o'
    rw [Finset.sum_congr rfl fun i _ => show
        (if owner o = i ∧ owner o' = i then
            W o j * (if o = o' then (2 : ℚ) else 0) * W o' j' else 0) =
          if owner o = i then
            (if owner o' = i then
              W o j * (if o = o' then (2 : ℚ) else 0) * W o' j' else 0) else 0 from by
      by_cases h1 : owner o = i <;> by_cases h2 : owner o' = i <;> simp [h1, h2]]
    rw [Finset.sum_ite_eq Finset.univ (owner o)]
    by_cases h : o = o'
    · subst h
      simp
      ring
    · simp [h, Ne.symm h]
  rw [Finset.sum_congr rfl fun o' _ => hinner o',
    Finset.sum_ite_eq Finset.univ o (fun o' => 2 * (W o j * W o' j'))]
  simp

/-- C3. Backpropagating a loss Hessian through the parallel composite
returns at the composite's input the sum over siblings of each sibling's
backpropagated input-side contribution, and for the test's quadratic loss
(output Hessian 2*identity) this returned input Hessian equals the exact
brute-force Hessian of the loss with respect to the shared input. -/
theorem parallel_backward_hessian_exact {n T I : Nat} (owner : Fin T → Fin n)
    (W : Fin T → Fin I → ℚ) (bvec : Fin T → ℚ) (x : Fin I → ℚ) (j j' : Fin I) :
    (∀ H : Fin T → Fin T → ℚ,
      backwardHessian owner W H j j' =
        ∑ i : Fin n, siblingInputHessian owner W H i j j') ∧
    backwardHessian owner W (lossOutputHessian T) j j' =
      bruteForceInputHessian W bvec x j j' := by
  refine ⟨fun H => rfl, ?_⟩
  rw [backwardHessian_eq, bruteForceInputHessian_eq]

/-! ## Loss-layer second-order operations

Modelled from the spec: the loss derivative implementations behind
sum_hessian, sqrt_hessian and sqrt_hessian_sampled of
src/test/core/derivatives/derivatives_test.py are not in src/ (only the
test is). Per the spec a loss-like terminal layer owns, per example, an
input Hessian, a square-root factor of it, and a Monte-Carlo approximation
drawn from M samples; each of the three operations first checks that the
Hessian is defined pointwise at the current (batched) input and fails with
a HessianUndefined error when it is degenerate at some example. Scalars are
per-example quantities; the batch is the list of per-example inputs. -/

structure LossLayer where
  hessianDefinedAt : ℚ → Bool
  hess : ℚ → ℚ
  sqrtFactor : ℚ → ℚ
  sampledFactor : Nat → ℚ → ℚ

/-- sum_hessian: the summed Hessian over the batch, or HessianUndefined. -/
def LossLayer.sum_hessian (l : LossLayer) (inputs : List ℚ) :
    Except BpError ℚ :=
  if inputs.all l.hessianDefinedAt then
    Except.ok ((inputs.map l.hess).sum)
  else
    Except.error BpError.hessianUndefined

/-- sqrt_hessian: one square-root factor group per example, or
HessianUndefined. -/
def LossLayer.sqrt_hessian (l : LossLayer) (inputs : List ℚ) :
    Except BpError (List ℚ) :=
  if inputs.all l.hessianDefinedAt then
    Except.ok (inputs.map l.sqrtFactor)
  else
    Except.error BpError.hessianUndefined

/-- sqrt_hessian_sampled: the M-sample Monte-Carlo factors per example, or
HessianUndefined. -/
def LossLayer.sqrt_hessian_sampled (l : LossLayer) (mc_samples : Nat)
    (inputs : List ℚ) : Except BpError (List ℚ) :=
  if inputs.all l.hessianDefinedAt then
    Except.ok (inputs.map (l.sampledFactor mc_samples))
  else
    Except.error BpError.hessianUndefined

/-- C5. On a loss whose Hessian is not defined pointwise at its current
input, sum_hessian, sqrt_hessian and sqrt_hessian_sampled all fail with a
HessianUndefined error rather than returning a value; on a loss whose
Hessian is defined at the current input, all three succeed. -/
theorem loss_second_order_fail_iff_undefined (l : LossLayer) (inputs : List ℚ)
    (mc_samples : Nat) :
    ((∃ x ∈ inputs, l.hessianDefinedAt x = false) →
      l.sum_hessian inputs = Except.error BpError.hessianUndefined ∧
      l.sqrt_hessian inputs = Except.error BpError.hessianUndefined ∧
      l.sqrt_hessian_sampled mc_samples inputs =
        Except.error BpError.hessianUndefined) ∧
    ((∀ x ∈ inputs, l.hessianDefinedAt x = true) →
      isOk (l.sum_hessian inputs) ∧
      isOk (l.sqrt_hessian inputs) ∧
      isOk (l.sqrt_hessian_sampled mc_samples inputs)) := by
  constructor
  · intro hbad
    have hall : ¬ inputs.all l.hessianDefinedAt := by
      rcases hbad with ⟨x, hx, hfalse⟩
      simp only [List.all_eq_true] at *
      intro hcontra
      have := hcontra x hx
      rw [hfalse] at this
      exact Bool.false_ne_true this
    unfold LossLayer.sum_hessian LossLayer.sqrt_hessian LossLayer.sqrt_hessian_sampled
    rw [if_neg hall, if_neg hall, if_neg hall]
    exact ⟨rfl, rfl, rfl⟩
  · intro hgood
    have hall : inputs.all l.hessianDefinedAt := by
      simp only [List.all_eq_true]
      exact hgood
    unfold LossLayer.sum_hessian LossLayer.sqrt_hessian LossLayer.sqrt_hessian_sampled
    rw [if_pos hall, if_pos hall, if_pos hall]
    exact ⟨trivial, trivial, trivial⟩

/-- Witness for C5: a loss degenerate exactly at input 0: the batch [0, 1]
makes all three fail, the batch [1, 2] makes all three succeed. -/
theorem loss_second_order_fail_iff_undefined_witness :
    (LossLayer.sum_hessian
        ⟨fun x => decide (x ≠ 0), fun x => x, fun x => x, fun _ x => x⟩ [0, 1] =
      Except.error BpError.hessianUndefined) ∧
    isOk (LossLayer.sqrt_hessian
        ⟨fun x => decide (x ≠ 0), fun x => x, fun x => x, fun _ x => x⟩ [1, 2]) := by
  constructor
  · exact ((loss_second_order_fail_iff_undefined
      ⟨fun x => decide (x ≠ 0), fun x => x, fun x => x, fun _ x => x⟩ [0, 1] 5).1
      ⟨0, by decide, by decide⟩).1
  · exact ((loss_second_order_fail_iff_undefined
      ⟨fun x => decide (x ≠ 0), fun x => x, fun x => x, fun _ x => x⟩ [1, 2] 5).2
      (by decide)).2.1

/-! ## DiagHReLU.apply and Python name resolution
(src/bpexts/gradient/diagh/relu.py)

DiagHReLU.apply calls `backpropagate_sqrt_h(...)` as a bare name even
though backpropagate_sqrt_h is only defined as a method of the class. At
the call, Python resolves the bare name against apply's local scope, the
module's global namespace, and the builtins; the lists below transcribe the
names bound in the first two from the source file (the imports bind torch,
CTX, einsum, BackpropExtension, jac_mat_prod and DIAG_H; the class
statement binds DiagHReLU; the trailing assignment binds EXTENSIONS), and
no builtin of that name exists, so the lookup fails with a NameError. -/

def reluDiagHModuleNames : List String :=
  ["torch", "CTX", "einsum", "BackpropExtension", "jac_mat_prod", "DIAG_H",
   "DiagHReLU", "EXTENSIONS"]

def applyLocalNames : List String :=
  ["self", "module", "grad_input", "grad_output", "sqrt_h_outs",
   "sqrt_h_outs_signs"]

/-- The extension context slice DiagHReLU touches: the in-flight
backpropagated square-root factors and their signs. -/
structure DiagHCtx where
  backpropagated_sqrt_h : List (List ℚ)
  backpropagated_sqrt_h_signs : List ℚ
  deriving DecidableEq, Repr

/-- The part of the ReLU module state apply reads. -/
structure ReLUModuleState where
  input0_requires_grad : Bool
  deriving DecidableEq, Repr

/-- DiagHReLU.apply: reads the context's factor lists into locals; when the
cached input requires gradient it invokes the bare name
backpropagate_sqrt_h, which succeeds only if the name resolves; otherwise
it returns with the context untouched. The argument backprop_fn stands for
whatever the named function would do to the context if the name resolved. -/
def DiagHReLU_apply (backprop_fn : DiagHCtx → DiagHCtx)
    (ctx : DiagHCtx) (module : ReLUModuleState) : Except BpError DiagHCtx :=
  if module.input0_requires_grad then
    if "backpropagate_sqrt_h" ∈ applyLocalNames ++ reluDiagHModuleNames then
      Except.ok (backprop_fn ctx)
    else
      Except.error (BpError.nameError "backpropagate_sqrt_h")
  else
    Except.ok ctx

/-- C9. When the ReLU module's cached input requires gradient,
DiagHReLU.apply fails with an unresolved-name error (the bare call never
resolves, whatever the method would have computed), so the
diagonal-Hessian extension never updates any backpropagated square-root
factor for a ReLU; when the cached input does not require gradient, apply
returns without modifying the context. -/
theorem diag_h_relu_apply_name_error (backprop_fn : DiagHCtx → DiagHCtx)
    (ctx : DiagHCtx) (module : ReLUModuleState) :
    (module.input0_requires_grad = true →
      DiagHReLU_apply backprop_fn ctx module =
        Except.error (BpError.nameError "backpropagate_sqrt_h")) ∧
    (module.input0_requires_grad = false →
      DiagHReLU_apply backprop_fn ctx module = Except.ok ctx) ∧
    (∀ ctx', DiagHReLU_apply backprop_fn ctx module = Except.ok ctx' →
      ctx'.backpropagated_sqrt_h = ctx.backpropagated_sqrt_h) := by
  have hname : "backpropagate_sqrt_h" ∉ applyLocalNames ++ reluDiagHModuleNames := by
    decide
  refine ⟨?_, ?_, ?_⟩
  · intro hrg
    unfold DiagHReLU_apply
    rw [if_pos hrg, if_neg hname]
  · intro hrg
    unfold DiagHReLU_apply
    rw [if_neg (by rw [hrg]; exact Bool.false_ne_true)]
  · intro ctx' hctx'
    unfold DiagHReLU_apply at hctx'
    by_cases hrg : module.input0_requires_grad = true
    · rw [if_pos hrg, if_neg hname] at hctx'
      exact absurd hctx' (by simp)
    · rw [if_neg hrg] at hctx'
      cases hctx'
      rfl

/-- Witness for C9: a ReLU whose cached input requires gradient raises the
NameError, one that does not leaves the context alone. -/
theorem diag_h_relu_apply_name_error_witness :
    DiagHReLU_apply id ⟨[[1]], [1]⟩ ⟨true⟩ =
      Except.error (BpError.nameError "backpropagate_sqrt_h") ∧
    DiagHReLU_apply id ⟨[[1]], [1]⟩ ⟨false⟩ = Except.ok ⟨[[1]], [1]⟩ := by
  exact ⟨(diag_h_relu_apply_name_error id ⟨[[1]], [1]⟩ ⟨true⟩).1 rfl,
    (diag_h_relu_apply_name_error id ⟨[[1]], [1]⟩ ⟨false⟩).2.1 rfl⟩

/-! ## Conv2d backward hook (src/bpexts/gradient/conv2d.py)

compute_first_order_info checks the arity of grad_output, then runs
compute_grad_batch when the BATCH_GRAD extension is active and
compute_sum_grad_squared when the SUM_GRAD_SQUARED extension is active.
Each of those attaches its artifact to a parameter only when that
parameter requires gradients (and to the bias only when the layer has
one); nothing else in the module state is touched. The unfolded cached
input stands in for self.unfold(self.input); the per-example gradient and
sum-of-squared-gradients artifacts are the einsum results embedded above. -/

/-- A parameter with its transient extension artifacts; γ is the shape of
the per-example gradient, σ the shape of the summed-squares artifact. -/
structure ConvParam (γ σ : Type) where
  requires_grad : Bool
  grad_batch : Option γ
  sum_grad_squared : Option σ

/-- The module state the backward hook can reach. -/
structure Conv2dGradState (B O L P : Nat) where
  inputUnfolded : Fin B → Fin L → Fin P → Int
  weight : ConvParam (Fin B → Fin O → Fin L → Int) (Fin O → Fin L → Int)
  bias : Option (ConvParam (Fin B → Fin O → Int) (Fin O → Int))

/-- The extension flags of the global context CTX that the hook queries. -/
structure GradCtx where
  batch_grad_active : Bool
  sum_grad_squared_active : Bool
  deriving DecidableEq, Repr

/-- compute_grad_batch: attach per-example gradients to bias (if present
and requiring gradients) and weight (if requiring gradients). -/
def compute_grad_batch {B O L P : Nat} (m : Conv2dGradState B O L P)
    (g : Fin B → Fin O → Fin P → Int) : Conv2dGradState B O L P :=
  { m with
    bias := m.bias.map fun bp =>
      if bp.requires_grad then { bp with grad_batch := some (biasGradBatch g) }
      else bp,
    weight :=
      if m.weight.requires_grad then
        { m.weight with grad_batch := some (weightGradBatch m.inputUnfolded g) }
      else m.weight }

/-- compute_sum_grad_squared: attach summed squared per-example gradients
to bias (if present and requiring gradients) and weight (if requiring
gradients). -/
def compute_sum_grad_squared {B O L P : Nat} (m : Conv2dGradState B O L P)
    (g : Fin B → Fin O → Fin P → Int) : Conv2dGradState B O L P :=
  { m with
    bias := m.bias.map fun bp =>
      if bp.requires_grad then { bp with sum_grad_squared := some (biasSGS g) }
      else bp,
    weight :=
      if m.weight.requires_grad then
        { m.weight with sum_grad_squared := some (weightSGS m.inputUnfolded g) }
      else m.weight }

/-- compute_first_order_info: the registered backward hook. Rejects
multi-output gradients, otherwise dispatches to the active extensions. -/
def compute_first_order_info {B O L P : Nat} (ctx : GradCtx)
    (m : Conv2dGradState B O L P)
    (grad_output : List (Fin B → Fin O → Fin P → Int)) :
    Except BpError (Conv2dGradState B O L P) :=
  if h : grad_output.length = 1 then
    let g := grad_output.get ⟨0, by simp [h]⟩
    let m1 := if ctx.batch_grad_active then compute_grad_batch m g else m
    let m2 := if ctx.sum_grad_squared_active then compute_sum_grad_squared m1 g else m1
    Except.ok m2
  else
    Except.error (BpError.shapeError "Cannot handle multi-output scenario")

/-- C10. The backward hook attaches a grad_batch artifact to a parameter
exactly when the batch-gradient extension is active and the parameter
requires gradients, and a sum_grad_squared artifact exactly when the
sum-of-squared-gradients extension is active and the parameter requires
gradients; bias artifacts exist only when the layer has a bias, and no
other attribute of the module or its parameters changes. -/
theorem conv2d_backward_hook_frame {B O L P : Nat} (ctx : GradCtx)
    (m : Conv2dGradState B O L P) (g : Fin B → Fin O → Fin P → Int) :
    ∃ m', compute_first_order_info ctx m [g] = Except.ok m' ∧
      m'.inputUnfolded = m.inputUnfolded ∧
      m'.weight.requires_grad = m.weight.requires_grad ∧
      m'.weight.grad_batch =
        (if ctx.batch_grad_active ∧ m.weight.requires_grad then
          some (weightGradBatch m.inputUnfolded g) else m.weight.grad_batch) ∧
      m'.weight.sum_grad_squared =
        (if ctx.sum_grad_squared_active ∧ m.weight.requires_grad then
          some (weightSGS m.inputUnfolded g) else m.weight.sum_grad_squared) ∧
      (m.bias = none → m'.bias = none) ∧
      (∀ bp, m.bias = some bp → m'.bias = some
        { requires_grad := bp.requires_grad,
          grad_batch :=
            if ctx.batch_grad_active ∧ bp.requires_grad then
              some (biasGradBatch g) else bp.grad_batch,
          sum_grad_squared :=
            if ctx.sum_grad_squared_active ∧ bp.requires_grad then
              some (biasSGS g) else bp.sum_grad_squared }) := by
  refine ⟨_, rfl, ?_, ?_, ?_, ?_, ?_, ?_⟩
  · cases hgb : ctx.batch_grad_active <;> cases hsg : ctx.sum_grad_squared_active <;>
      simp [compute_grad_batch, compute_sum_grad_squared, hgb, hsg]
  · cases hgb : ctx.batch_grad_active <;> cases hsg : ctx.sum_grad_squared_active <;>
      cases hwr : m.weight.requires_grad <;>
      simp [compute_grad_batch, compute_sum_grad_squared, hgb, hsg, hwr]
  · cases hgb : ctx.batch_grad_active <;> cases hsg : ctx.sum_grad_squared_active <;>
      cases hwr : m.weight.requires_grad <;>
      simp [compute_grad_batch, compute_sum_grad_squared, hgb, hsg, hwr]
  · cases hgb : ctx.batch_grad_active <;> cases hsg : ctx.sum_grad_squared_active <;>
      cases hwr : m.weight.requires_grad <;>
      simp [compute_grad_batch, compute_sum_grad_squared, hgb, hsg, hwr]
  · intro hb
    cases hgb : ctx.batch_grad_active <;> cases hsg : ctx.sum_grad_squared_active <;>
      simp [compute_grad_batch, compute_sum_grad_squared, hgb, hsg, hb]
  · intro bp hbp
    obtain ⟨brg, bgb, bsgs⟩ := bp
    cases hgb : ctx.batch_grad_active <;> cases hsg : ctx.sum_grad_squared_active <;>
      cases brg <;>
      simp [compute_grad_batch, compute_sum_grad_squared, hgb, hsg, hbp]

/-! ## weight_jac_t_mat_prod evaluation orders

Modelled from the spec: the convolution derivative code of
backpack/core/derivatives/convnd.py with its weight_jac_t_save_memory
toggle is not in src/ (only derivatives_test.py is). Per the spec, the
transposed weight-Jacobian product contracts the unfolded input against
the backpropagated vectors over the patch axis; two evaluation orders
exist, the default (direct contraction over the patch axis) and a
save-memory order that accumulates patch by patch; both must agree, for
both values of the sum_batch flag, with the reference transposed-Jacobian
product obtained from the forward map itself (the autodiff reference). The
forward map turns the convolution into a batched matrix multiply of the
kernel matrix W with the unfolded input X, as in conv2d.py. -/

/-- Forward map of the convolution as a batched matrix multiply:
Y[b,i,j] = sum_m W[i,m] * X[b,m,j]. -/
def convForward {B O L P : Nat} (W : Fin O → Fin L → ℚ)
    (X : Fin B → Fin L → Fin P → ℚ) (b : Fin B) (i : Fin O) (j : Fin P) : ℚ :=
  ∑ m : Fin L, W i m * X b m j

/-- Default evaluation order: contract the unfolded input against the
backpropagated vectors directly over the patch axis, per example. -/
def weight_jac_t_default {V B O L P : Nat} (X : Fin B → Fin L → Fin P → ℚ)
    (mat : Fin V → Fin B → Fin O → Fin P → ℚ)
    (v : Fin V) (b : Fin B) (i : Fin O) (m : Fin L) : ℚ :=
  ∑ j : Fin P, X b m j * mat v b i j

/-- Default evaluation order with sum_batch=True: the per-example results
summed over the batch. -/
def weight_jac_t_default_summed {V B O L P : Nat} (X : Fin B → Fin L → Fin P → ℚ)
    (mat : Fin V → Fin B → Fin O → Fin P → ℚ)
    (v : Fin V) (i : Fin O) (m : Fin L) : ℚ :=
  ∑ b : Fin B, weight_jac_t_default X mat v b i m

/-- Save-memory evaluation order: accumulate one patch contribution at a
time into a running result instead of materializing the whole contraction. -/
def weight_jac_t_save_memory {V B O L P : Nat} (X : Fin B → Fin L → Fin P → ℚ)
    (mat : Fin V → Fin B → Fin O → Fin P → ℚ)
    (v : Fin V) (b : Fin B) (i : Fin O) (m : Fin L) : ℚ :=
  (List.finRange P).foldl (fun acc j => acc + mat v b i j * X b m j) 0

/-- Save-memory evaluation order with sum_batch=True: accumulate the
per-example results one example at a time. -/
def weight_jac_t_save_memory_summed {V B O L P : Nat}
    (X : Fin B → Fin L → Fin P → ℚ)
    (mat : Fin V → Fin B → Fin O → Fin P → ℚ)
    (v : Fin V) (i : Fin O) (m : Fin L) : ℚ :=
  (List.finRange B).foldl
    (fun acc b => acc + weight_jac_t_save_memory X mat v b i m) 0

/-- The unit kernel matrix with a one at entry (i, m). -/
def unitKernel {O L : Nat} (i : Fin O) (m : Fin L) : Fin O → Fin L → ℚ :=
  fun a c => if a = i ∧ c = m then 1 else 0

/-- Reference (autodiff) transposed weight-Jacobian product: the gradient
of the pairing of the backpropagated vectors with the forward output,
extracted coefficient by coefficient through the forward map at unit
kernels. -/
def weight_jac_t_autograd {V B O L P : Nat} (X : Fin B → Fin L → Fin P → ℚ)
    (mat : Fin V → Fin B → Fin O → Fin P → ℚ)
    (v : Fin V) (b : Fin B) (i : Fin O) (m : Fin L) : ℚ :=
  ∑ a : Fin O, ∑ j : Fin P, mat v b a j * convForward (unitKernel i m) X b a j

/-- Reference transposed weight-Jacobian product with sum_batch=True. -/
def weight_jac_t_autograd_summed {V B O L P : Nat}
    (X : Fin B → Fin L → Fin P → ℚ)
    (mat : Fin V → Fin B → Fin O → Fin P → ℚ)
    (v : Fin V) (i : Fin O) (m : Fin L) : ℚ :=
  ∑ b : Fin B, weight_jac_t_autograd X mat v b i m

/-- Left fold of successive additions is the sum of the mapped list. -/
lemma foldl_add_map {α : Type} (f : α → ℚ) (l : List α) (c : ℚ) :
    l.foldl (fun acc a => acc + f a) c = c + (l.map f).sum := by
  induction l generalizing c with
  | nil => simp
  | cons a l ih => simp [List.foldl_cons, ih (c + f a)]; ring

/-- Left-fold accumulation over all indices equals the finite sum. -/
lemma foldl_add_eq_sum {n : Nat} (f : Fin n → ℚ) :
    (List.finRange n).foldl (fun acc a => acc + f a) 0 = ∑ a : Fin n, f a := by
  rw [foldl_add_map f (List.finRange n) 0, Fin.sum_univ_def]
  ring

/-- The autodiff reference evaluates to the direct patch-axis contraction. -/
lemma weight_jac_t_autograd_eq {V B O L P : Nat}
    (X : Fin B → Fin L → Fin P → ℚ)
    (mat : Fin V → Fin B → Fin O → Fin P → ℚ)
    (v : Fin V) (b : Fin B) (i : Fin O) (m : Fin L) :
    weight_jac_t_autograd X mat v b i m = ∑ j : Fin P, X b m j * mat v b i j := by
  unfold weight_jac_t_autograd convForward unitKernel
  have hinner : ∀ (a : Fin O) (j : Fin P),
      (∑ c : Fin L, (if a = i ∧ c = m then (1 : ℚ) else 0) * X b c j) =
        if a = i then X b m j else 0 := by
    intro a j
    rw [Finset.sum_congr rfl fun c _ => show
        ((if a = i ∧ c = m then (1 : ℚ) else 0) * X b c j) =
          if c = m then (if a = i then X b m j else 0) else 0 from by
      by_cases h1 : a = i <;> by_cases h2 : c = m <;> simp [h1, h2]]
    rw [Finset.sum_ite_eq' Finset.univ m fun _ => if a = i then X b m j else 0]
    simp
  rw [Finset.sum_congr rfl fun a _ => Finset.sum_congr rfl fun j _ =>
    congrArg (mat v b a j * ·) (hinner a j)]
  rw [Finset.sum_congr rfl fun a _ => show
      (∑ j : Fin P, mat v b a j * if a = i then X b m j else 0) =
        if a = i then ∑ j : Fin P, X b m j * mat v b i j else 0 from by
    by_cases h : a = i
    · subst h
      simp [mul_comm]
    · simp [h]]
  rw [Finset.sum_ite_eq' Finset.univ i fun _ => ∑ j : Fin P, X b m j * mat v b i j]
  simp

/-- C8. For every convolution layer, every matrix of backpropagated
vectors, and both values of the sum_batch flag, the save-memory evaluation
order and the default evaluation order of weight_jac_t_mat_prod agree with
each other and with the reference (autodiff) transposed weight-Jacobian
product; over exact arithmetic the agreement is exact, hence within any
floating-point tolerance. -/
theorem weight_jac_t_orders_agree {V B O L P : Nat}
    (X : Fin B → Fin L → Fin P → ℚ)
    (mat : Fin V → Fin B → Fin O → Fin P → ℚ)
    (v : Fin V) (b : Fin B) (i : Fin O) (m : Fin L) :
    (weight_jac_t_save_memory X mat v b i m = weight_jac_t_default X mat v b i m ∧
     weight_jac_t_default X mat v b i m = weight_jac_t_autograd X mat v b i m) ∧
    (weight_jac_t_save_memory_summed X mat v i m =
        weight_jac_t_default_summed X mat v i m ∧
     weight_jac_t_default_summed X mat v i m =
        weight_jac_t_autograd_summed X mat v i m) := by
  have hper : ∀ b' : Fin B,
      weight_jac_t_save_memory X mat v b' i m = weight_jac_t_default X mat v b' i m := by
    intro b'
    unfold weight_jac_t_save_memory weight_jac_t_default
    rw [foldl_add_eq_sum fun j => mat v b' i j * X b' m j]
    exact Finset.sum_congr rfl fun j _ => mul_comm _ _
  refine ⟨⟨hper b, (weight_jac_t_autograd_eq X mat v b i m).symm⟩, ?_, ?_⟩
  · unfold weight_jac_t_save_memory_summed weight_jac_t_default_summed
    rw [foldl_add_eq_sum fun b' => weight_jac_t_save_memory X mat v b' i m]
    exact Finset.sum_congr rfl fun b' _ => hper b'
  · unfold weight_jac_t_default_summed weight_jac_t_autograd_summed
    exact Finset.sum_congr rfl fun b' _ =>
      (weight_jac_t_autograd_eq X mat v b' i m).symm
